import Mathlib

/-!
Verification of `scripts/generate-cv.py` (JSONResume → LaTeX CV generator).

Shallow embedding conventions:
* Python strings are `List Char` (ASCII assumptions are noted where they matter).
* `dict.get(k, default)` on optional data becomes an `Option` field plus `Option.getD`,
  or a plain field whose default value stands for "absent" when the code only ever
  tests truthiness (Python `''` and a missing key behave identically there).
* `str.replace(old, new)` with a single-character `old` is the character-wise map
  `replaceChar`; with a multi-character `old` it is the left-to-right non-overlapping
  scan `replaceStr`.
* `datetime.strptime(s, "%Y-%m-%d")` is modelled by `strptimeYMD`, following CPython's
  `_strptime` regular expressions for `%Y` (4 digits), `%m` (`1[0-2]|0[1-9]|[1-9]`) and
  `%d` (`3[01]|[12]\x5cd|0[1-9]|[1-9]`), plus the calendar validation performed by the
  `datetime` constructor (proleptic Gregorian, year ≥ 1).  Digits are modelled as ASCII.
  `strftime("%m/%Y")` zero-pads the month to two digits and prints the year as an
  unpadded decimal (glibc behaviour).
-/

/-! ### Character helpers -/

/-- Numeric value of an ASCII digit character (`'0'` ↦ 0, …). -/
def dval (c : Char) : Nat := c.toNat - 48

/-- `c` is an ASCII digit. -/
def isDig (c : Char) : Prop := 48 ≤ c.toNat ∧ c.toNat ≤ 57

instance (c : Char) : Decidable (isDig c) := by unfold isDig; infer_instance

/-- The character for a single decimal digit. -/
def digitCh (n : Nat) : Char := Char.ofNat (48 + n)

/-- ASCII lowercasing of one character (model of `str.lower` on the ASCII fragment). -/
def lowerChar (c : Char) : Char :=
  if 65 ≤ c.toNat ∧ c.toNat ≤ 90 then Char.ofNat (c.toNat + 32) else c

/-- ASCII lowercasing of a string (model of `str.lower`). -/
def strLower (s : List Char) : List Char := s.map lowerChar

/-- Append the rendered fragments of all elements, in order. -/
def catMap {α : Type} (f : α → List Char) : List α → List Char
  | [] => []
  | x :: xs => f x ++ catMap f xs

/-! ### The escaper `escape_latex` -/

/-- The 9 special characters of the `replacements` table in `escape_latex`. -/
def latexSpecials : List Char := ['&', '%', '$', '#', '_', '{', '}', '~', '^']

/-- The `replacements` dict of `escape_latex`, in insertion (= iteration) order. -/
def replacements : List (Char × List Char) :=
  [ ('&', ['\\', '&']),
    ('%', ['\\', '%']),
    ('$', ['\\', '$']),
    ('#', ['\\', '#']),
    ('_', ['\\', '_']),
    ('{', ['\\', '{']),
    ('}', ['\\', '}']),
    ('~', "\\textasciitilde\x7b\x7d".toList),
    ('^', "\\^\x7b\x7d".toList) ]

/-- `text.replace(old, new)` for a single-character `old`. -/
def replaceChar (old : Char) (new : List Char) : List Char → List Char
  | [] => []
  | c :: rest => (if c = old then new else [c]) ++ replaceChar old new rest

/-- The `for old, new in replacements.items(): text = text.replace(old, new)` loop. -/
def applyRepls (s : List Char) : List Char :=
  replacements.foldl (fun t p => replaceChar p.1 p.2 t) s

/-- `escape_latex` from `generate-cv.py` (the `if not text: return ""` guard followed by
the replacement loop). -/
def escape_latex (text : List Char) : List Char :=
  if text = [] then [] else applyRepls text

/-! ### Scanning predicates on rendered markup -/

/-- Scan with the previous character `p`: `true` iff no occurrence of `spc` in the list
is unescaped, where an occurrence is escaped exactly when the character immediately
before it is a backslash. -/
def noUnescFrom (spc : Char) (p : Char) : List Char → Bool
  | [] => true
  | c :: rest => ((p == '\\') || (c != spc)) && noUnescFrom spc c rest

/-- No unescaped occurrence of `spc` (the first character has no predecessor). -/
def noUnesc (spc : Char) (s : List Char) : Bool := noUnescFrom spc ' ' s

/-- Scan with previous character `p`: every `'{'` is either immediately preceded by a
backslash or immediately followed by `'}'`. -/
def braceOKFrom (p : Char) : List Char → Bool
  | [] => true
  | c :: rest =>
      ((c != '{') || (p == '\\') ||
        (match rest with | d :: _ => d == '}' | [] => false))
      && braceOKFrom c rest

/-- Every open brace is escaped or starts an empty group `\x7b\x7d`. -/
def braceOK (s : List Char) : Bool := braceOKFrom ' ' s

/-- The list contains three consecutive characters `a, '{', b` with `a ≠ '\\'` and
`b ≠ '}'` — a brace occurrence that can never appear in escaper output. -/
def hasBadBrace : List Char → Bool
  | a :: b :: c :: rest =>
      ((a != '\\') && (b == '{') && (c != '}')) || hasBadBrace (b :: c :: rest)
  | _ => false

/-! ### `str.replace` with a multi-character pattern -/

/-- `pat` is a prefix of the second list (decidable, by character comparison). -/
def isPre : List Char → List Char → Bool
  | [], _ => true
  | _ :: _, [] => false
  | p :: ps, c :: cs => (p == c) && isPre ps cs

/-- Worker for `replaceStr`: the `Nat` argument counts characters of a just-matched
pattern still to be skipped (Python's `str.replace` never rescans a replacement). -/
def replGo (pat rep : List Char) : List Char → Nat → List Char
  | _ :: rest, k + 1 => replGo pat rep rest k
  | [], _ => []
  | c :: rest, 0 =>
      if isPre pat (c :: rest) = true ∧ pat ≠ [] then
        rep ++ replGo pat rep rest (pat.length - 1)
      else
        c :: replGo pat rep rest 0

/-- `s.replace(pat, rep)` for a non-empty `pat`: left-to-right, non-overlapping. -/
def replaceStr (pat rep s : List Char) : List Char := replGo pat rep s 0

/-- Worker for `countOcc`, mirroring `replGo`. -/
def countGo (pat : List Char) : List Char → Nat → Nat
  | _ :: rest, k + 1 => countGo pat rest k
  | [], _ => 0
  | c :: rest, 0 =>
      if isPre pat (c :: rest) = true ∧ pat ≠ [] then
        1 + countGo pat rest (pat.length - 1)
      else
        countGo pat rest 0

/-- Number of non-overlapping occurrences of `pat` (as counted by `str.replace`). -/
def countOcc (pat s : List Char) : Nat := countGo pat s 0

/-- `pat` occurs somewhere in the list (`pat in s` for non-empty `pat`). -/
def occurs (pat : List Char) : List Char → Bool
  | [] => pat == []
  | c :: rest => isPre pat (c :: rest) || occurs pat rest

/-! ### Dates: `format_date` and `format_date_range` -/

/-- Leap year of the proleptic Gregorian calendar (as in `datetime`). -/
def isLeap (y : Nat) : Bool := ((y % 4 == 0) && (y % 100 != 0)) || (y % 400 == 0)

/-- Number of days of month `m` of year `y` (as validated by the `datetime` ctor). -/
def daysInMonth (y m : Nat) : Nat :=
  if m = 2 then (if isLeap y then 29 else 28)
  else if m = 4 ∨ m = 6 ∨ m = 9 ∨ m = 11 then 30
  else 31

/-- CPython `_strptime` month field `1[0-2]|0[1-9]|[1-9]`: returns the month value and
the unconsumed remainder.  Greedy two-digit matching agrees with the regex because a
failed continuation after a two-digit match also fails after the one-digit match. -/
def parseMonth : List Char → Option (Nat × List Char)
  | c1 :: c2 :: rest =>
      if c1 = '1' ∧ isDig c2 ∧ dval c2 ≤ 2 then some (10 + dval c2, rest)
      else if c1 = '0' ∧ 1 ≤ dval c2 ∧ dval c2 ≤ 9 then some (dval c2, rest)
      else if isDig c1 ∧ 1 ≤ dval c1 then some (dval c1, c2 :: rest)
      else none
  | [c1] => if isDig c1 ∧ 1 ≤ dval c1 then some (dval c1, []) else none
  | [] => none

/-- CPython `_strptime` day field `3[01]|[12]\x5cd|0[1-9]|[1-9]`. -/
def parseDay : List Char → Option (Nat × List Char)
  | c1 :: c2 :: rest =>
      if c1 = '3' ∧ (c2 = '0' ∨ c2 = '1') then some (30 + dval c2, rest)
      else if (c1 = '1' ∨ c1 = '2') ∧ isDig c2 then some (10 * dval c1 + dval c2, rest)
      else if c1 = '0' ∧ 1 ≤ dval c2 ∧ dval c2 ≤ 9 then some (dval c2, rest)
      else if isDig c1 ∧ 1 ≤ dval c1 then some (dval c1, c2 :: rest)
      else none
  | [c1] => if isDig c1 ∧ 1 ≤ dval c1 then some (dval c1, []) else none
  | [] => none

/-- `datetime.strptime(s, "%Y-%m-%d")`: the anchored regex
`(\x5cd\x5cd\x5cd\x5cd)-(month)-(day)` followed by `datetime`'s calendar validation;
`none` models the `ValueError` swallowed by the `except:` in `format_date`. -/
def strptimeYMD (s : List Char) : Option (Nat × Nat × Nat) :=
  match s with
  | y1 :: y2 :: y3 :: y4 :: c :: rest =>
      if isDig y1 ∧ isDig y2 ∧ isDig y3 ∧ isDig y4 ∧ c = '-' then
        match parseMonth rest with
        | some (m, c2 :: rest2) =>
            if c2 = '-' then
              match parseDay rest2 with
              | some (d, []) =>
                  let y := 1000 * dval y1 + 100 * dval y2 + 10 * dval y3 + dval y4
                  if 1 ≤ y ∧ d ≤ daysInMonth y m then some (y, m, d) else none
              | _ => none
            else none
        | _ => none
      else none
  | _ => none

/-- Worker for `natToChars`; the fuel argument makes the recursion structural. -/
def natToCharsCore : Nat → Nat → List Char
  | 0, _ => []
  | f + 1, n => if n < 10 then [digitCh n] else natToCharsCore f (n / 10) ++ [digitCh (n % 10)]

/-- Unpadded decimal rendering of a natural number (glibc `strftime("%Y")`). -/
def natToChars (n : Nat) : List Char := natToCharsCore (n + 1) n

/-- Two-digit zero-padded rendering (`strftime("%m")`, for values below 100). -/
def pad2 (n : Nat) : List Char := if n < 10 then '0' :: natToChars n else natToChars n

/-- `format_date` from `generate-cv.py`.  (`lang` is accepted and ignored, as in the
source.) -/
def format_date (date_str : List Char) (lang : List Char) : List Char :=
  if date_str = [] then []
  else
    match strptimeYMD date_str with
    | some (y, m, _) => pad2 m ++ '/' :: natToChars y
    | none => date_str

/-- `format_date_range` from `generate-cv.py`. -/
def format_date_range (start_date end_date lang : List Char) : List Char :=
  let start := format_date start_date lang
  if end_date = [] then
    start ++ " – ".toList ++ (if lang = "en".toList then "Current".toList else "Attuale".toList)
  else
    start ++ " – ".toList ++ format_date end_date lang

/-! ### Data model (JSONResume fragment read by the script) -/

/-- One entry of `basics.profiles`. -/
structure Profile where
  network : List Char
  username : List Char

/-- One entry of the `work` array.  A missing key and `''`/`[]` are identified: the
script only reads fields through `get` with those defaults or tests truthiness. -/
structure Job where
  position : List Char
  name : List Char
  location : List Char
  startDate : List Char
  endDate : List Char
  summary : List Char
  highlights : List (List Char)
  keywords : List (List Char)

/-- One entry of the `education` array. -/
structure Edu where
  studyType : List Char
  institution : List Char
  location : List Char
  startDate : List Char
  endDate : List Char

/-- One entry of the `skills` array. -/
structure Skill where
  name : List Char
  keywords : List (List Char)

/-- `basics.location`. -/
structure Location where
  address : List Char
  postalCode : List Char
  city : List Char
  countryCode : List Char

/-- The `basics` block. -/
structure Basics where
  name : List Char
  label : List Char
  phone : List Char
  email : List Char
  summary : List Char
  url : List Char
  location : Location
  profiles : List Profile

/-- `basics.get(..., default)` values used when the whole block is missing. -/
def emptyLocation : Location := ⟨[], [], [], []⟩

/-- The empty `basics` dict `\x7b\x7d` produced by `data.get('basics', \x7b\x7d)`. -/
def emptyBasics : Basics := ⟨[], [], [], [], [], [], emptyLocation, []⟩

/-- The parsed JSON document (the fragment `generate_cv` reads).  `basics` is an
`Option` because claim C3 is about the document lacking that block. -/
structure ResumeData where
  basics : Option Basics
  work : List Job
  education : List Edu
  skills : List Skill

/-- `config.yaml` keys read by the script; `none` models a missing key. -/
structure Config where
  show_technologies : Option Bool
  max_highlights_per_job : Option Int
  color : Option (List Char)

/-! ### Section renderers -/

/-- The truncation applied inside the highlights branch:
`highlights[:max_highlights] if max_highlights > 0 else highlights`. -/
def truncatedHighlights (config : Config) (hl : List (List Char)) : List (List Char) :=
  if 0 < config.max_highlights_per_job.getD 0 then
    hl.take (config.max_highlights_per_job.getD 0).toNat
  else hl

/-- Everything one iteration of the `for job in work` loop appends before the
technologies line: header, escaped fields, date range, summary and highlights. -/
def jobMain (config : Config) (lang : List Char) (job : Job) : List Char :=
  "\\cventrylong\n".toList
  ++ "  \x7b".toList ++ escape_latex job.position ++ "\x7d\n".toList
  ++ "  \x7b".toList ++ escape_latex job.name ++ "\x7d\n".toList
  ++ "  \x7b".toList ++ escape_latex job.location ++ "\x7d\n".toList
  ++ "  \x7b".toList
    ++ escape_latex (format_date_range job.startDate job.endDate lang) ++ "\x7d\n".toList
  ++ "  \x7b\n".toList
  ++ (if job.summary ≠ [] then "    ".toList ++ escape_latex job.summary ++ "\n".toList else [])
  ++ (if job.highlights ≠ [] then
        "    \\begin\x7bcvitems\x7d\n".toList
        ++ catMap (fun h => "      \\item \x7b".toList ++ escape_latex h ++ "\x7d\n".toList)
             (truncatedHighlights config job.highlights)
        ++ "    \\end\x7bcvitems\x7d\n".toList
      else [])
  ++ "  \x7d\n".toList

/-- The technologies/keywords line: the comma-joined escaped keywords when
`show_technologies` (default `True`) holds and keywords are non-empty, else the empty
placeholder `\x7b\x7d`. -/
def techPart (config : Config) (job : Job) : List Char :=
  if config.show_technologies.getD true = true ∧ job.keywords ≠ [] then
    "  \x7b".toList ++ escape_latex (List.intercalate (", ".toList) job.keywords) ++ "\x7d\n".toList
  else "  \x7b\x7d\n".toList

/-- The complete text appended for one work entry (ends with the blank line). -/
def jobBlock (config : Config) (lang : List Char) (job : Job) : List Char :=
  jobMain config lang job ++ techPart config job ++ "\n".toList

/-- `generate_experience_section`: the accumulating `latex += …` loop. -/
def generate_experience_section (work : List Job) (config : Config) (lang : List Char) :
    List Char :=
  work.foldl (fun latex job => latex ++ jobBlock config lang job) []

/-- The text appended for one education entry. -/
def eduBlock (lang : List Char) (edu : Edu) : List Char :=
  "\\cventry\n".toList
  ++ "  \x7b".toList ++ escape_latex edu.studyType ++ "\x7d\n".toList
  ++ "  \x7b".toList ++ escape_latex edu.institution ++ "\x7d\n".toList
  ++ "  \x7b".toList ++ escape_latex edu.location ++ "\x7d\n".toList
  ++ "  \x7b".toList
    ++ escape_latex (format_date_range edu.startDate edu.endDate lang) ++ "\x7d\n".toList
  ++ "  \x7b\x7d\n\n".toList

/-- `generate_education_section`. -/
def generate_education_section (education : List Edu) (lang : List Char) : List Char :=
  education.foldl (fun latex edu => latex ++ eduBlock lang edu) []

/-- The text appended for one skill group: nothing at all when the keyword list is
empty, otherwise one block with the escaped group name and the individually escaped
keywords joined by `" \\textbar\\ "`. -/
def skillBlock (skill : Skill) : List Char :=
  if skill.keywords ≠ [] then
    "\\cvskills\n".toList
    ++ "  \x7b".toList ++ escape_latex skill.name ++ "\x7d\n".toList
    ++ "  \x7b\n".toList
    ++ "    ".toList
    ++ List.intercalate (" \\textbar\\ ".toList) (skill.keywords.map escape_latex)
    ++ "\n  \x7d\n\n".toList
  else []

/-- `generate_skills_section` (`lang` is accepted and ignored, as in the source). -/
def generate_skills_section (skills : List Skill) (lang : List Char) : List Char :=
  skills.foldl (fun latex skill => latex ++ skillBlock skill) []

/-! ### The template compositor and `generate_cv` -/

/-- The `labels` dict selected by `if lang == 'en'`. -/
structure Labels where
  summary : List Char
  experience : List Char
  education : List Char
  skills : List Char
  languages : List Char
  additional : List Char

/-- Section labels: the English table for `lang == 'en'`, the Italian one otherwise. -/
def labelsFor (lang : List Char) : Labels :=
  if lang = "en".toList then
    ⟨"Summary".toList, "Experience".toList, "Education".toList, "Skills".toList,
      "Languages".toList, "Additional Information".toList⟩
  else
    ⟨"Profilo".toList, "Esperienza".toList, "Istruzione".toList, "Competenze".toList,
      "Lingue".toList, "Informazioni Aggiuntive".toList⟩

/-- The address assembly: street, postal code, city and (mapped) country, skipping
empty components, joined by `", "`.  Only `IT` is in `country_map`. -/
def full_address (loc : Location) (lang : List Char) : List Char :=
  List.intercalate (", ".toList)
    ((if loc.address ≠ [] then [loc.address] else [])
      ++ (if loc.postalCode ≠ [] then [loc.postalCode] else [])
      ++ (if loc.city ≠ [] then [loc.city] else [])
      ++ (if loc.countryCode ≠ [] then
            [if loc.countryCode = "IT".toList then
                (if lang = "en".toList then "Italy".toList else "Italia".toList)
              else loc.countryCode]
          else []))

/-- The `for profile in basics.get('profiles', [])` loop: each matching entry
overwrites the accumulator, so the result is the pair
(LinkedIn username, GitHub username) taken from the latest matches. -/
def extractProfiles (profiles : List Profile) : List Char × List Char :=
  profiles.foldl
    (fun acc p =>
      if strLower p.network = "linkedin".toList then (p.username, acc.2)
      else if strLower p.network = "github".toList then (acc.1, p.username)
      else acc)
    ([], [])

/-- The username of the last profile entry whose lowercased network name equals `net`
(empty if there is none) — the value the overwrite-loop of `generate_cv` keeps. -/
def lastMatching (net : List Char) (profiles : List Profile) : List Char :=
  match profiles.reverse.find? (fun p => decide (strLower p.network = net)) with
  | some p => p.username
  | none => []

/-- The values substituted into the template, in the order `generate_cv` computes
them. -/
structure TemplateValues where
  name : List Char
  title : List Char
  address : List Char
  phone : List Char
  email : List Char
  linkedin : List Char
  github : List Char
  homepage : List Char
  color : List Char
  labelSummary : List Char
  summary : List Char
  labelExperience : List Char
  experience : List Char
  labelEducation : List Char
  education : List Char
  labelSkills : List Char
  skills : List Char

/-- The `(placeholder, value)` pairs of the `cv_content.replace(…)` chain, in source
order (including the rewrite of the fixed `\\colorlet` line). -/
def cvReplacePairs (v : TemplateValues) : List (List Char × List Char) :=
  [ ("\x7b\x7bNAME\x7d\x7d".toList, v.name),
    ("\x7b\x7bTITLE\x7d\x7d".toList, v.title),
    ("\x7b\x7bADDRESS\x7d\x7d".toList, v.address),
    ("\x7b\x7bPHONE\x7d\x7d".toList, v.phone),
    ("\x7b\x7bEMAIL\x7d\x7d".toList, v.email),
    ("\x7b\x7bLINKEDIN\x7d\x7d".toList, v.linkedin),
    ("\x7b\x7bGITHUB\x7d\x7d".toList, v.github),
    ("\x7b\x7bHOMEPAGE\x7d\x7d".toList, v.homepage),
    ("\\colorlet\x7bawesome\x7d\x7bawesome-skyblue\x7d".toList,
      "\\colorlet\x7bawesome\x7d\x7bawesome-".toList ++ v.color ++ "\x7d".toList),
    ("\x7b\x7bLABEL_SUMMARY\x7d\x7d".toList, v.labelSummary),
    ("\x7b\x7bSUMMARY\x7d\x7d".toList, v.summary),
    ("\x7b\x7bLABEL_EXPERIENCE\x7d\x7d".toList, v.labelExperience),
    ("\x7b\x7bEXPERIENCE\x7d\x7d".toList, v.experience),
    ("\x7b\x7bLABEL_EDUCATION\x7d\x7d".toList, v.labelEducation),
    ("\x7b\x7bEDUCATION\x7d\x7d".toList, v.education),
    ("\x7b\x7bLABEL_SKILLS\x7d\x7d".toList, v.labelSkills),
    ("\x7b\x7bSKILLS\x7d\x7d".toList, v.skills) ]

/-- The template compositor: the chain of `replace` calls applied to the template. -/
def composeTemplate (v : TemplateValues) (template : List Char) : List Char :=
  (cvReplacePairs v).foldl (fun acc pr => replaceStr pr.1 pr.2 acc) template

/-- `generate_cv` (the pure part: from parsed data, config, language and template text
to the composed document; file I/O and the LaTeX compiler are outside the model). -/
def generate_cv (data : ResumeData) (config : Config) (lang : List Char)
    (template : List Char) : List Char :=
  let basics := data.basics.getD emptyBasics
  let labels := labelsFor lang
  let prof := extractProfiles basics.profiles
  composeTemplate
    ⟨escape_latex basics.name,
      escape_latex basics.label,
      escape_latex (full_address basics.location lang),
      escape_latex basics.phone,
      escape_latex basics.email,
      prof.1,
      prof.2,
      basics.url,
      (config.color.getD ("skyblue".toList)),
      labels.summary,
      escape_latex basics.summary,
      labels.experience,
      generate_experience_section data.work config lang,
      labels.education,
      generate_education_section data.education lang,
      labels.skills,
      generate_skills_section data.skills lang⟩
    template

/-! ### Concrete fixtures used in witnesses and counterexamples -/

/-- The 7 special characters whose replacements never reintroduce them unescaped
(the braces are reintroduced by the tilde/caret replacements). -/
def nonBraceSpecials : List Char := ['&', '%', '$', '#', '_', '~', '^']

/-- A `TemplateValues` record with every field empty. -/
def emptyValues : TemplateValues :=
  ⟨[], [], [], [], [], [], [], [], [], [], [], [], [], [], [], [], []⟩

/-- Configuration with `show_technologies: true` and `max_highlights_per_job: 2`. -/
def cfgTwo : Config := ⟨some true, some 2, none⟩

/-- A work entry with five highlights. -/
def jobFive : Job :=
  ⟨"Engineer".toList, "ACME".toList, "Rome".toList, "2019-01-01".toList, [],
    "Did things".toList,
    ["h1".toList, "h2".toList, "h3".toList, "h4".toList, "h5".toList],
    ["python".toList]⟩

/-- A parsed document with no `basics` block. -/
def noBasicsData : ResumeData := ⟨none, [], [], []⟩

/-- An empty configuration (every key missing). -/
def anyConfig : Config := ⟨none, none, none⟩

/-! ### Basic lemmas about characters -/

theorem char_eq_of_toNat_eq {a b : Char} (h : a.toNat = b.toNat) : a = b := by
  have ha := Char.ofNat_toNat a
  have hb := Char.ofNat_toNat b
  rw [← ha, ← hb, h]

theorem digitCh_dval {c : Char} (h : isDig c) : digitCh (dval c) = c := by
  have h48 : 48 + dval c = c.toNat := by
    rcases h with ⟨h1, _⟩
    unfold dval
    omega
  unfold digitCh
  rw [h48, Char.ofNat_toNat]

/-! ### Lemmas about `replaceChar` and the replacement loop -/

theorem replaceChar_append (old : Char) (new : List Char) :
    ∀ s t : List Char, replaceChar old new (s ++ t) = replaceChar old new s ++ replaceChar old new t
  | [], _ => rfl
  | c :: rest, t => by
      show replaceChar old new (c :: (rest ++ t)) = _
      simp only [replaceChar]
      rw [replaceChar_append old new rest t, List.append_assoc]

theorem replaceChar_eq_self {old : Char} {new : List Char} :
    ∀ {s : List Char}, old ∉ s → replaceChar old new s = s
  | [], _ => rfl
  | c :: rest, h => by
      have hc : c ≠ old := fun hco => h (hco ▸ List.mem_cons_self c rest)
      simp only [replaceChar, if_neg hc, List.singleton_append, List.cons.injEq, true_and]
      exact replaceChar_eq_self fun hm => h (List.mem_cons_of_mem c hm)

theorem mem_replaceChar_of_ne {c old : Char} {new : List Char} :
    ∀ {s : List Char}, c ∈ s → c ≠ old → c ∈ replaceChar old new s
  | a :: rest, h, hne => by
      simp only [replaceChar, List.mem_append]
      rcases List.mem_cons.mp h with rfl | hmem
      · left; simp [if_neg hne]
      · right; exact mem_replaceChar_of_ne hmem hne

theorem mem_replaceChar_of_mem_new {c old : Char} {new : List Char} :
    ∀ {s : List Char}, old ∈ s → c ∈ new → c ∈ replaceChar old new s
  | a :: rest, h, hc => by
      simp only [replaceChar, List.mem_append]
      rcases List.mem_cons.mp h with rfl | hmem
      · left; simpa using hc
      · right; exact mem_replaceChar_of_mem_new hmem hc

theorem length_replaceChar_ge (old : Char) {new : List Char} (hnew : new ≠ []) :
    ∀ s : List Char, s.length ≤ (replaceChar old new s).length
  | [] => Nat.le_refl _
  | c :: rest => by
      have ih := length_replaceChar_ge old hnew rest
      have hpos : 0 < new.length := List.length_pos.mpr hnew
      by_cases hc : c = old
      · simp only [replaceChar, if_pos hc, List.length_append, List.length_cons]
        omega
      · simp only [replaceChar, if_neg hc, List.singleton_append, List.length_cons]
        omega

theorem length_replaceChar_gt (old : Char) {new : List Char} (h2 : 2 ≤ new.length) :
    ∀ {s : List Char}, old ∈ s → s.length < (replaceChar old new s).length
  | [], h => absurd h (List.not_mem_nil old)
  | c :: rest, h => by
      have hnew : new ≠ [] := by intro hn; rw [hn] at h2; simp at h2
      rcases List.mem_cons.mp h with rfl | hmem
      · have ih := length_replaceChar_ge old hnew rest
        have hpos : 0 < new.length := List.length_pos.mpr hnew
        simp [replaceChar]
        omega
      · have ih := length_replaceChar_gt old h2 hmem
        by_cases hc : c = old
        · have ihge := length_replaceChar_ge old hnew rest
          simp [replaceChar, hc]
          omega
        · simp only [replaceChar, if_neg hc, List.singleton_append, List.length_cons]
          omega

/-- Shorthand for one step of the replacement loop, used by the `foldl` lemmas. -/
def replStep (t : List Char) (p : Char × List Char) : List Char := replaceChar p.1 p.2 t

theorem foldl_replStep_eq_self :
    ∀ (L : List (Char × List Char)) (s : List Char), (∀ p ∈ L, p.1 ∉ s) →
      L.foldl replStep s = s
  | [], _, _ => rfl
  | q :: L, s, h => by
      have hq : replStep s q = s := replaceChar_eq_self (h q (List.mem_cons_self q L))
      simp only [List.foldl_cons, hq]
      exact foldl_replStep_eq_self L s fun p hp => h p (List.mem_cons_of_mem q hp)

theorem foldl_replStep_length_ge :
    ∀ (L : List (Char × List Char)), (∀ p ∈ L, p.2 ≠ []) →
      ∀ s : List Char, s.length ≤ (L.foldl replStep s).length
  | [], _, _ => Nat.le_refl _
  | q :: L, h, s => by
      have h1 : s.length ≤ (replStep s q).length :=
        length_replaceChar_ge q.1 (h q (List.mem_cons_self q L)) s
      have h2 := foldl_replStep_length_ge L (fun p hp => h p (List.mem_cons_of_mem q hp))
        (replStep s q)
      simp only [List.foldl_cons]
      omega

theorem foldl_replStep_length_gt :
    ∀ (L : List (Char × List Char)) {s : List Char} {c : Char},
      (∀ p ∈ L, 2 ≤ p.2.length) → (∃ p ∈ L, p.1 = c) → c ∈ s →
      s.length < (L.foldl replStep s).length
  | [], _, _, _, hex, _ => by simp at hex
  | q :: L, s, c, h2, hex, hc => by
      have hLne : ∀ p ∈ L, p.2 ≠ [] := by
        intro p hp hn
        have := h2 p (List.mem_cons_of_mem q hp)
        rw [hn] at this; simp at this
      by_cases hq : q.1 = c
      · have hgt : s.length < (replStep s q).length :=
          length_replaceChar_gt q.1 (h2 q (List.mem_cons_self q L)) (hq ▸ hc)
        have hge := foldl_replStep_length_ge L hLne (replStep s q)
        simp only [List.foldl_cons]
        omega
      · have hqne : q.2 ≠ [] := by
          have := h2 q (List.mem_cons_self q L)
          intro hn; rw [hn] at this; simp at this
        have hge : s.length ≤ (replStep s q).length := length_replaceChar_ge q.1 hqne s
        rcases hex with ⟨p, hp, hpc⟩
        have hpL : p ∈ L := by
          rcases List.mem_cons.mp hp with rfl | h
          · exact absurd hpc hq
          · exact h
        have hcs : c ∈ replStep s q := mem_replaceChar_of_ne hc fun heq => hq heq.symm
        have hrec := foldl_replStep_length_gt L (fun p hp => h2 p (List.mem_cons_of_mem q hp))
          ⟨p, hpL, hpc⟩ hcs
        simp only [List.foldl_cons]
        omega

theorem foldl_replStep_preserves_special :
    ∀ (L : List (Char × List Char)) (s : List Char),
      (∀ p ∈ L, ∃ e ∈ p.2, e ∈ latexSpecials) → (∃ c ∈ s, c ∈ latexSpecials) →
      ∃ c ∈ L.foldl replStep s, c ∈ latexSpecials
  | [], _, _, hs => hs
  | q :: L, s, hL, hs => by
      simp only [List.foldl_cons]
      apply foldl_replStep_preserves_special L _ fun p hp => hL p (List.mem_cons_of_mem q hp)
      rcases hs with ⟨d, hd, hdsp⟩
      by_cases hdq : d = q.1
      · rcases hL q (List.mem_cons_self q L) with ⟨e, he, hesp⟩
        exact ⟨e, mem_replaceChar_of_mem_new (hdq ▸ hd) he, hesp⟩
      · exact ⟨d, mem_replaceChar_of_ne hd hdq, hdsp⟩

theorem applyRepls_eq_foldl (s : List Char) : applyRepls s = replacements.foldl replStep s := rfl

theorem escape_latex_eq_applyRepls (s : List Char) : escape_latex s = applyRepls s := by
  cases s with
  | nil => rfl
  | cons c rest => simp [escape_latex]

theorem applyRepls_append (s t : List Char) :
    applyRepls (s ++ t) = applyRepls s ++ applyRepls t := by
  rw [applyRepls_eq_foldl, applyRepls_eq_foldl, applyRepls_eq_foldl]
  generalize replacements = L
  induction L generalizing s t with
  | nil => simp
  | cons q L ih =>
      simp only [List.foldl_cons]
      rw [show replStep (s ++ t) q = replStep s q ++ replStep t q from
        replaceChar_append q.1 q.2 s t]
      exact ih _ _

theorem applyRepls_cons (c : Char) (t : List Char) :
    applyRepls (c :: t) = applyRepls [c] ++ applyRepls t := by
  have := applyRepls_append [c] t
  simpa using this

theorem applyRepls_eq_self {s : List Char} (h : ∀ c ∈ s, c ∉ latexSpecials) :
    applyRepls s = s := by
  rw [applyRepls_eq_foldl]
  apply foldl_replStep_eq_self
  intro p hp hmem
  have hsp : p.1 ∈ latexSpecials := by
    fin_cases hp <;> decide
  exact h p.1 hmem hsp

theorem length_applyRepls_gt {s : List Char} {c : Char} (hc : c ∈ latexSpecials) (hs : c ∈ s) :
    s.length < (applyRepls s).length := by
  rw [applyRepls_eq_foldl]
  have hall : ∀ p ∈ replacements, 2 ≤ p.2.length := by decide
  have hex : ∃ p ∈ replacements, p.1 = c := by fin_cases hc <;> decide
  exact foldl_replStep_length_gt replacements hall hex hs

theorem applyRepls_preserves_special {s : List Char} (hs : ∃ c ∈ s, c ∈ latexSpecials) :
    ∃ c ∈ applyRepls s, c ∈ latexSpecials := by
  rw [applyRepls_eq_foldl]
  exact foldl_replStep_preserves_special replacements s (by decide) hs

/-- The expansions of the nine special characters under the full replacement loop. -/
theorem applyRepls_amp : applyRepls ['&'] = ['\\', '&'] := by decide

theorem applyRepls_pct : applyRepls ['%'] = ['\\', '%'] := by decide

theorem applyRepls_dollar : applyRepls ['$'] = ['\\', '$'] := by decide

theorem applyRepls_hash : applyRepls ['#'] = ['\\', '#'] := by decide

theorem applyRepls_under : applyRepls ['_'] = ['\\', '_'] := by decide

theorem applyRepls_lbrace : applyRepls ['{'] = ['\\', '{'] := by decide

theorem applyRepls_rbrace : applyRepls ['}'] = ['\\', '}'] := by decide

theorem applyRepls_tilde : applyRepls ['~'] = "\\textasciitilde\x7b\x7d".toList := by decide

theorem applyRepls_caret : applyRepls ['^'] = "\\^\x7b\x7d".toList := by decide

theorem applyRepls_single {c : Char} (hc : c ∉ latexSpecials) : applyRepls [c] = [c] :=
  applyRepls_eq_self (by intro d hd; simp at hd; subst hd; exact hc)

/-! ### The escaped output contains no unescaped special characters -/

theorem noUnescFrom_append {spc : Char} {ys : List Char}
    (hys : ∀ q, noUnescFrom spc q ys = true) :
    ∀ (xs : List Char) (p : Char), noUnescFrom spc p xs = true →
      noUnescFrom spc p (xs ++ ys) = true
  | [], p, _ => hys p
  | c :: xs, p, h => by
      simp only [noUnescFrom, Bool.and_eq_true] at h
      simp only [List.cons_append, noUnescFrom, Bool.and_eq_true]
      exact ⟨h.1, noUnescFrom_append hys xs c h.2⟩

theorem noUnescFrom_block {spc : Char} (hspc : spc ∈ nonBraceSpecials) (c q : Char) :
    noUnescFrom spc q (applyRepls [c]) = true := by
  by_cases hc : c ∈ latexSpecials
  · fin_cases hc <;>
      simp only [applyRepls_amp, applyRepls_pct, applyRepls_dollar, applyRepls_hash,
        applyRepls_under, applyRepls_lbrace, applyRepls_rbrace, applyRepls_tilde,
        applyRepls_caret] <;>
      fin_cases hspc <;> simp [noUnescFrom]
  · rw [applyRepls_single hc]
    have hne : c ≠ spc := by
      intro h
      apply hc
      rw [h]
      fin_cases hspc <;> decide
    simp [noUnescFrom, hne]

theorem noUnescFrom_applyRepls {spc : Char} (hspc : spc ∈ nonBraceSpecials) :
    ∀ (s : List Char) (p : Char), noUnescFrom spc p (applyRepls s) = true
  | [], _ => rfl
  | c :: t, p => by
      rw [applyRepls_cons]
      exact noUnescFrom_append (noUnescFrom_applyRepls hspc t)
        (applyRepls [c]) p (noUnescFrom_block hspc c p)

/-! ### Every brace in the escaped output is escaped or part of an empty group -/

theorem braceOKFrom_cons (p c : Char) (rest : List Char) :
    braceOKFrom p (c :: rest)
      = (((c != '{') || (p == '\\') ||
          (match rest with | d :: _ => d == '}' | [] => false))
        && braceOKFrom c rest) := rfl

theorem braceOKFrom_append {ys : List Char} (hys : ∀ q, braceOKFrom q ys = true) :
    ∀ (xs : List Char) (p : Char), braceOKFrom p xs = true → braceOKFrom p (xs ++ ys) = true
  | [], p, _ => hys p
  | c :: xs, p, h => by
      rw [braceOKFrom_cons, Bool.and_eq_true] at h
      show braceOKFrom p (c :: (xs ++ ys)) = true
      rw [braceOKFrom_cons, Bool.and_eq_true]
      refine ⟨?_, braceOKFrom_append hys xs c h.2⟩
      have h1 := h.1
      cases xs with
      | nil =>
          rw [List.nil_append]
          simp only [Bool.or_eq_true, Bool.or_false] at h1 ⊢
          exact Or.inl h1
      | cons d xs' => exact h1

theorem braceOKFrom_block (c q : Char) : braceOKFrom q (applyRepls [c]) = true := by
  by_cases hc : c ∈ latexSpecials
  · fin_cases hc <;>
      simp only [applyRepls_amp, applyRepls_pct, applyRepls_dollar, applyRepls_hash,
        applyRepls_under, applyRepls_lbrace, applyRepls_rbrace, applyRepls_tilde,
        applyRepls_caret] <;>
      simp [braceOKFrom]
  · rw [applyRepls_single hc]
    have hne : c ≠ '{' := by intro h; apply hc; rw [h]; decide
    simp [braceOKFrom, hne]

theorem braceOKFrom_applyRepls :
    ∀ (s : List Char) (p : Char), braceOKFrom p (applyRepls s) = true
  | [], _ => rfl
  | c :: t, p => by
      rw [applyRepls_cons]
      exact braceOKFrom_append (braceOKFrom_applyRepls t)
        (applyRepls [c]) p (braceOKFrom_block c p)

/-! ### Strings whose braces are all safe contain none of the template patterns -/

theorem exists_of_isPre : ∀ {pat l : List Char}, isPre pat l = true → ∃ t, l = pat ++ t
  | [], l, _ => ⟨l, rfl⟩
  | p :: ps, [], h => by simp [isPre] at h
  | p :: ps, c :: cs, h => by
      simp only [isPre, Bool.and_eq_true, beq_iff_eq] at h
      rcases exists_of_isPre h.2 with ⟨t, ht⟩
      exact ⟨t, by rw [List.cons_append, ← ht, h.1]⟩

theorem braceOKFrom_badTriple {a b : Char} (ha : a ≠ '\\') (hb : b ≠ '}') :
    ∀ (u : List Char) (p : Char) (v : List Char),
      braceOKFrom p (u ++ a :: '{' :: b :: v) = false
  | [], p, v => by
      have h2 : (a == '\\') = false := by simp [ha]
      have h3 : (b == '}') = false := by simp [hb]
      simp [braceOKFrom, h2, h3]
  | x :: u, p, v => by
      show braceOKFrom p (x :: (u ++ a :: '{' :: b :: v)) = false
      rw [braceOKFrom_cons, braceOKFrom_badTriple ha hb u x v, Bool.and_false]

theorem exists_triple_of_hasBadBrace :
    ∀ {pat : List Char}, hasBadBrace pat = true →
      ∃ u a b v, pat = u ++ a :: '{' :: b :: v ∧ a ≠ '\\' ∧ b ≠ '}'
  | [], h => by simp [hasBadBrace] at h
  | [_], h => by simp [hasBadBrace] at h
  | [_, _], h => by simp [hasBadBrace] at h
  | a :: b :: c :: rest, h => by
      simp only [hasBadBrace, Bool.or_eq_true, Bool.and_eq_true, bne_iff_ne, beq_iff_eq] at h
      rcases h with ⟨⟨ha, hb⟩, hc⟩ | h
      · exact ⟨[], a, c, rest, by rw [hb]; rfl, ha, hc⟩
      · rcases exists_triple_of_hasBadBrace h with ⟨u, a', b', v, heq, ha', hb'⟩
        exact ⟨a :: u, a', b', v, by rw [List.cons_append, ← heq], ha', hb'⟩

theorem not_occurs_of_braceOK {pat : List Char} (hbad : hasBadBrace pat = true) :
    ∀ (s : List Char) (p : Char), braceOKFrom p s = true → occurs pat s = false
  | [], _, _ => by
      rcases exists_triple_of_hasBadBrace hbad with ⟨u, a, b, v, heq, _, _⟩
      subst heq
      cases u <;> rfl
  | c :: rest, p, h => by
      have htail : braceOKFrom c rest = true := by
        simp only [braceOKFrom, Bool.and_eq_true] at h
        exact h.2
      have hpre : isPre pat (c :: rest) = false := by
        by_contra hcon
        rw [Bool.not_eq_false] at hcon
        rcases exists_of_isPre hcon with ⟨t, ht⟩
        rcases exists_triple_of_hasBadBrace hbad with ⟨u, a, b, v, heq, ha, hb⟩
        have hfalse : braceOKFrom p (c :: rest) = false := by
          rw [ht, heq]
          have := braceOKFrom_badTriple ha hb u p (v ++ t)
          simpa [List.append_assoc] using this
        rw [hfalse] at h
        exact Bool.noConfusion h
      have hrest := not_occurs_of_braceOK hbad rest c htail
      simp [occurs, hpre, hrest]

/-! ### `replaceStr` is the identity when the pattern does not occur -/

theorem replaceStr_eq_of_not_occurs {pat rep : List Char} :
    ∀ s : List Char, occurs pat s = false → replaceStr pat rep s = s
  | [], _ => rfl
  | c :: rest, h => by
      rw [occurs, Bool.or_eq_false_iff] at h
      show replGo pat rep (c :: rest) 0 = c :: rest
      rw [replGo, if_neg (by simp [h.1])]
      exact congrArg (c :: ·) (replaceStr_eq_of_not_occurs rest h.2)

theorem foldl_replaceStr_eq_self :
    ∀ (L : List (List Char × List Char)) (t : List Char),
      (∀ pr ∈ L, replaceStr pr.1 pr.2 t = t) →
      L.foldl (fun acc pr => replaceStr pr.1 pr.2 acc) t = t
  | [], _, _ => rfl
  | q :: L, t, h => by
      simp only [List.foldl_cons, h q (List.mem_cons_self q L)]
      exact foldl_replaceStr_eq_self L t fun pr hpr => h pr (List.mem_cons_of_mem q hpr)

/-- Any text whose braces are all escaped-or-grouped is untouched by the whole
`replace` chain of the compositor: each placeholder pattern contains a brace that can
never occur in such text. -/
theorem composeTemplate_of_braceOK (v : TemplateValues) {t : List Char}
    (h : braceOK t = true) : composeTemplate v t = t := by
  unfold composeTemplate
  apply foldl_replaceStr_eq_self
  intro pr hpr
  have hbad : hasBadBrace pr.1 = true := by
    simp only [cvReplacePairs, List.mem_cons, List.not_mem_nil, or_false] at hpr
    rcases hpr with rfl | rfl | rfl | rfl | rfl | rfl | rfl | rfl | rfl | rfl | rfl | rfl | rfl |
      rfl | rfl | rfl | rfl <;> rfl
  exact replaceStr_eq_of_not_occurs t (not_occurs_of_braceOK hbad t ' ' h)

/-! ### The accumulating section loops append one block per entry, in order -/

theorem foldl_append_eq_catMap {α : Type} (f : α → List Char) :
    ∀ (l : List α) (init : List Char),
      l.foldl (fun acc x => acc ++ f x) init = init ++ catMap f l
  | [], init => by simp [catMap]
  | x :: l, init => by
      simp only [List.foldl_cons, catMap]
      rw [foldl_append_eq_catMap f l (init ++ f x), List.append_assoc]

/-! ### Decimal rendering -/

theorem natToCharsCore_succ (f n : Nat) :
    natToCharsCore (f + 1) n
      = if n < 10 then [digitCh n] else natToCharsCore f (n / 10) ++ [digitCh (n % 10)] := rfl

theorem natToCharsCore_small {f n : Nat} (hn : n < 10) (hf : 0 < f) :
    natToCharsCore f n = [digitCh n] := by
  cases f with
  | zero => omega
  | succ f' => rw [natToCharsCore_succ, if_pos hn]

theorem natToCharsCore_step {f n : Nat} (hn : 10 ≤ n) (hf : 0 < f) :
    natToCharsCore f n = natToCharsCore (f - 1) (n / 10) ++ [digitCh (n % 10)] := by
  cases f with
  | zero => omega
  | succ f' => rw [natToCharsCore_succ, if_neg (by omega), Nat.succ_sub_one]

theorem natToChars_small {n : Nat} (h : n < 10) : natToChars n = [digitCh n] := by
  unfold natToChars
  exact natToCharsCore_small h (by omega)

theorem natToChars_four {a b c d : Nat} (ha : 1 ≤ a) (ha9 : a ≤ 9) (hb : b ≤ 9) (hc : c ≤ 9)
    (hd : d ≤ 9) :
    natToChars (1000 * a + 100 * b + 10 * c + d)
      = [digitCh a, digitCh b, digitCh c, digitCh d] := by
  have h1 : (1000 * a + 100 * b + 10 * c + d) / 10 = 100 * a + 10 * b + c := by omega
  have h2 : (1000 * a + 100 * b + 10 * c + d) % 10 = d := by omega
  have h3 : (100 * a + 10 * b + c) / 10 = 10 * a + b := by omega
  have h4 : (100 * a + 10 * b + c) % 10 = c := by omega
  have h5 : (10 * a + b) / 10 = a := by omega
  have h6 : (10 * a + b) % 10 = b := by omega
  unfold natToChars
  rw [natToCharsCore_step (by omega) (by omega), h1, h2]
  rw [natToCharsCore_step (by omega) (by omega), h3, h4]
  rw [natToCharsCore_step (by omega) (by omega), h5, h6]
  rw [natToCharsCore_small (by omega) (by omega)]
  simp

theorem pad2_small {m : Nat} (h9 : m ≤ 9) : pad2 m = ['0', digitCh m] := by
  unfold pad2
  rw [if_pos (by omega), natToChars_small (by omega)]

theorem pad2_teens {m : Nat} (h10 : 10 ≤ m) (h12 : m ≤ 19) :
    pad2 m = ['1', digitCh (m - 10)] := by
  have h1 : m / 10 = 1 := by omega
  have h2 : m % 10 = m - 10 := by omega
  unfold pad2
  rw [if_neg (by omega)]
  unfold natToChars
  rw [natToCharsCore_step (by omega) (by omega), h1, h2,
    natToCharsCore_small (by omega) (by omega)]
  have hd1 : digitCh 1 = '1' := by decide
  rw [hd1]
  rfl

/-! ### Evaluating the date parser on a well-formed two-digit month and day -/

theorem toNat_ne_of_ne {c d : Char} (h : c ≠ d) : c.toNat ≠ d.toNat :=
  fun he => h (char_eq_of_toNat_eq he)

theorem char_eq_of_dval {c : Char} (h : isDig c) {k : Nat} (hk : dval c = k) :
    c = digitCh k :=
  (digitCh_dval h).symm.trans (congrArg digitCh hk)

theorem parseMonth_two {m1 m2 : Char} (h1 : isDig m1) (h2 : isDig m2)
    (hlo : 1 ≤ 10 * dval m1 + dval m2) (hhi : 10 * dval m1 + dval m2 ≤ 12) (rest : List Char) :
    parseMonth (m1 :: m2 :: rest) = some (10 * dval m1 + dval m2, rest) := by
  obtain ⟨h1a, h1b⟩ := h1
  obtain ⟨h2a, h2b⟩ := h2
  by_cases hm0 : m1 = '0'
  · subst hm0
    have hd0 : dval '0' = 0 := by decide
    rw [hd0] at hlo hhi ⊢
    have hm2lo : 1 ≤ dval m2 := by omega
    have hm2hi : dval m2 ≤ 9 := by unfold dval; omega
    simp [parseMonth, hm2lo, hm2hi]
  · by_cases hm1 : m1 = '1'
    · subst hm1
      have hd1 : dval '1' = 1 := by decide
      rw [hd1] at hhi ⊢
      have hm2hi : dval m2 ≤ 2 := by omega
      have hdig : isDig m2 := ⟨h2a, h2b⟩
      simp [parseMonth, hdig, hm2hi]
    · exfalso
      have hne0 : m1.toNat ≠ 48 := by
        have := toNat_ne_of_ne hm0
        simpa using this
      have hne1 : m1.toNat ≠ 49 := by
        have := toNat_ne_of_ne hm1
        simpa using this
      unfold dval at hlo hhi
      omega

theorem parseDay_two {d1 d2 : Char} (h1 : isDig d1) (h2 : isDig d2)
    (hlo : 1 ≤ 10 * dval d1 + dval d2) (hhi : 10 * dval d1 + dval d2 ≤ 31) (rest : List Char) :
    parseDay (d1 :: d2 :: rest) = some (10 * dval d1 + dval d2, rest) := by
  obtain ⟨h1a, h1b⟩ := h1
  obtain ⟨h2a, h2b⟩ := h2
  by_cases hd3 : d1 = '3'
  · subst hd3
    have hv3 : dval '3' = 3 := by decide
    rw [hv3] at hhi ⊢
    have hd2 : dval d2 ≤ 1 := by omega
    have hcase : d2 = '0' ∨ d2 = '1' := by
      rcases Nat.lt_or_ge (dval d2) 1 with hlt | hge
      · refine Or.inl ((char_eq_of_dval ⟨h2a, h2b⟩ (show dval d2 = 0 by omega)).trans ?_)
        decide
      · refine Or.inr ((char_eq_of_dval ⟨h2a, h2b⟩ (show dval d2 = 1 by omega)).trans ?_)
        decide
    rcases hcase with rfl | rfl
    · have hv0 : dval '0' = 0 := by decide
      simp [parseDay, hv0]
    · have hv1 : dval '1' = 1 := by decide
      simp [parseDay, hv1]
  · by_cases hd12 : d1 = '1' ∨ d1 = '2'
    · have hdig : isDig d2 := ⟨h2a, h2b⟩
      rcases hd12 with rfl | rfl
      · simp [parseDay, hdig]
      · simp [parseDay, hdig]
    · by_cases hd0 : d1 = '0'
      · subst hd0
        have hv0 : dval '0' = 0 := by decide
        rw [hv0] at hlo ⊢
        have hlo2 : 1 ≤ dval d2 := by omega
        have hhi2 : dval d2 ≤ 9 := by unfold dval; omega
        simp [parseDay, hlo2, hhi2]
      · exfalso
        have hne0 : d1.toNat ≠ 48 := by simpa using toNat_ne_of_ne hd0
        have hne1 : d1.toNat ≠ 49 := by
          simpa using toNat_ne_of_ne (fun h => hd12 (Or.inl h))
        have hne2 : d1.toNat ≠ 50 := by
          simpa using toNat_ne_of_ne (fun h => hd12 (Or.inr h))
        have hne3 : d1.toNat ≠ 51 := by simpa using toNat_ne_of_ne hd3
        unfold dval at hlo hhi
        omega

theorem daysInMonth_le (y m : Nat) : daysInMonth y m ≤ 31 := by
  unfold daysInMonth
  split
  · split <;> omega
  · split <;> omega

theorem dval_le_nine {c : Char} (h : isDig c) : dval c ≤ 9 := by
  obtain ⟨h1, h2⟩ := h
  unfold dval
  omega

theorem one_le_dval {c : Char} (h : isDig c) (h0 : c ≠ '0') : 1 ≤ dval c := by
  obtain ⟨h1, h2⟩ := h
  have hne : c.toNat ≠ 48 := by simpa using toNat_ne_of_ne h0
  unfold dval
  omega

theorem strptimeYMD_wellFormed {y1 y2 y3 y4 m1 m2 d1 d2 : Char}
    (hy1 : isDig y1) (hy2 : isDig y2) (hy3 : isDig y3) (hy4 : isDig y4)
    (hm1 : isDig m1) (hm2 : isDig m2) (hd1 : isDig d1) (hd2 : isDig d2)
    (hy0 : y1 ≠ '0')
    (hmlo : 1 ≤ 10 * dval m1 + dval m2) (hmhi : 10 * dval m1 + dval m2 ≤ 12)
    (hdlo : 1 ≤ 10 * dval d1 + dval d2)
    (hdhi : 10 * dval d1 + dval d2
      ≤ daysInMonth (1000 * dval y1 + 100 * dval y2 + 10 * dval y3 + dval y4)
          (10 * dval m1 + dval m2)) :
    strptimeYMD [y1, y2, y3, y4, '-', m1, m2, '-', d1, d2]
      = some (1000 * dval y1 + 100 * dval y2 + 10 * dval y3 + dval y4,
          10 * dval m1 + dval m2, 10 * dval d1 + dval d2) := by
  have hdhi31 : 10 * dval d1 + dval d2 ≤ 31 :=
    le_trans hdhi (daysInMonth_le _ _)
  have hylo : 1 ≤ 1000 * dval y1 + 100 * dval y2 + 10 * dval y3 + dval y4 := by
    have := one_le_dval hy1 hy0
    omega
  simp [strptimeYMD, hy1, hy2, hy3, hy4, hylo, hdhi,
    parseMonth_two hm1 hm2 hmlo hmhi, parseDay_two hd1 hd2 hdlo hdhi31]

theorem format_date_wellFormed {y1 y2 y3 y4 m1 m2 d1 d2 : Char}
    (hy1 : isDig y1) (hy2 : isDig y2) (hy3 : isDig y3) (hy4 : isDig y4)
    (hm1 : isDig m1) (hm2 : isDig m2) (hd1 : isDig d1) (hd2 : isDig d2)
    (hy0 : y1 ≠ '0')
    (hmlo : 1 ≤ 10 * dval m1 + dval m2) (hmhi : 10 * dval m1 + dval m2 ≤ 12)
    (hdlo : 1 ≤ 10 * dval d1 + dval d2)
    (hdhi : 10 * dval d1 + dval d2
      ≤ daysInMonth (1000 * dval y1 + 100 * dval y2 + 10 * dval y3 + dval y4)
          (10 * dval m1 + dval m2)) (lang : List Char) :
    format_date [y1, y2, y3, y4, '-', m1, m2, '-', d1, d2] lang
      = [m1, m2, '/', y1, y2, y3, y4] := by
  unfold format_date
  rw [if_neg (by simp),
    strptimeYMD_wellFormed hy1 hy2 hy3 hy4 hm1 hm2 hd1 hd2 hy0 hmlo hmhi hdlo hdhi]
  show pad2 (10 * dval m1 + dval m2) ++ '/'
      :: natToChars (1000 * dval y1 + 100 * dval y2 + 10 * dval y3 + dval y4)
    = [m1, m2, '/', y1, y2, y3, y4]
  rw [natToChars_four (one_le_dval hy1 hy0) (dval_le_nine hy1) (dval_le_nine hy2)
    (dval_le_nine hy3) (dval_le_nine hy4)]
  rw [digitCh_dval hy1, digitCh_dval hy2, digitCh_dval hy3, digitCh_dval hy4]
  by_cases hm0 : m1 = '0'
  · subst hm0
    have hv0 : dval '0' = 0 := by decide
    rw [hv0]
    rw [show (10 * 0 + dval m2) = dval m2 from by omega]
    rw [pad2_small (dval_le_nine hm2), digitCh_dval hm2]
    rfl
  · have hm1' : m1 = '1' := by
      obtain ⟨h1a, h1b⟩ := hm1
      have hne0 : m1.toNat ≠ 48 := by simpa using toNat_ne_of_ne hm0
      have h49 : m1.toNat = 49 := by
        by_contra hne
        have h2b := dval_le_nine hm2
        unfold dval at hmhi
        omega
      exact char_eq_of_toNat_eq (by rw [h49]; decide)
    subst hm1'
    have hv1 : dval '1' = 1 := by decide
    rw [hv1]
    rw [show (10 * 1 + dval m2) = 10 + dval m2 from by omega]
    rw [pad2_teens (by omega) (by have := dval_le_nine hm2; omega)]
    rw [show 10 + dval m2 - 10 = dval m2 from by omega, digitCh_dval hm2]
    rfl

/-! ### The profile loop keeps the last matching entry -/

/-- Amended claim C2: the LinkedIn handle used in the output is the username of the
*last* entry whose network name case-insensitively equals `linkedin` (empty when none
matches), and likewise the GitHub handle for `github`; when several entries match the
same network, the latest one in the list supplies the handle. -/
theorem extractProfiles_eq_lastMatching (profiles : List Profile) :
    extractProfiles profiles
      = (lastMatching ("linkedin".toList) profiles, lastMatching ("github".toList) profiles) := by
  induction profiles using List.reverseRecOn with
  | nil => rfl
  | append_singleton l p ih =>
      simp only [extractProfiles] at ih
      by_cases h1 : strLower p.network = "linkedin".toList
      · have h2 : ¬ strLower p.network = "github".toList := by rw [h1]; decide
        unfold extractProfiles
        rw [List.foldl_append]
        simp only [List.foldl_cons, List.foldl_nil]
        rw [ih]
        simp [lastMatching, List.reverse_append, h1, h2]
      · by_cases h2 : strLower p.network = "github".toList
        · unfold extractProfiles
          rw [List.foldl_append]
          simp only [List.foldl_cons, List.foldl_nil]
          rw [ih]
          simp [lastMatching, List.reverse_append, h1, h2]
        · unfold extractProfiles
          rw [List.foldl_append]
          simp only [List.foldl_cons, List.foldl_nil]
          rw [ih]
          show (if strLower p.network = "linkedin".toList then _ else
            if strLower p.network = "github".toList then _ else _) = _
          rw [if_neg h1, if_neg h2]
          unfold lastMatching
          rw [List.reverse_append]
          simp only [List.reverse_singleton, List.singleton_append, List.find?_cons,
            decide_eq_false h1, decide_eq_false h2]


/-! ## Remaining claim theorems -/

/-- Counterexample for claim C1 as stated: escaping `"~"` yields
`\textasciitilde\x7b\x7d`, whose open brace — one of the 9 special characters — is
not preceded by a backslash. -/
theorem escaper_unescaped_brace :
    noUnesc '{' (escape_latex ("~".toList)) = false ∧ '{' ∈ latexSpecials := by decide

/-- Amended claim C1: for every input, the escaper's output contains no unescaped
occurrence of any of the 7 non-brace special characters; every open brace of the
output is either preceded by a backslash or immediately followed by a close brace
(the empty group introduced by the tilde/caret replacements); and the template
compositor leaves already-escaped text unchanged (no further escaping or substitution
occurs downstream of the escaper). -/
theorem escaper_output_safe (s : List Char) :
    (∀ spc ∈ nonBraceSpecials, noUnesc spc (escape_latex s) = true)
    ∧ braceOK (escape_latex s) = true
    ∧ ∀ v : TemplateValues, composeTemplate v (escape_latex s) = escape_latex s := by
  have hb : braceOK (escape_latex s) = true := by
    rw [escape_latex_eq_applyRepls]
    exact braceOKFrom_applyRepls s ' '
  refine ⟨?_, hb, fun v => composeTemplate_of_braceOK v hb⟩
  intro spc hspc
  rw [escape_latex_eq_applyRepls]
  exact noUnescFrom_applyRepls hspc s ' '

/-- Witness for `escaper_output_safe` at a concrete input. -/
theorem escaper_output_safe_witness :
    noUnesc '&' (escape_latex ("a&b".toList)) = true :=
  (escaper_output_safe ("a&b".toList)).1 '&' (by decide)

/-- Counterexample for claim C2 as stated: with two `linkedin` entries the loop
keeps the second one's username, not the first's. -/
theorem profile_extraction_counterexample :
    (extractProfiles
        [⟨"linkedin".toList, "first".toList⟩, ⟨"linkedin".toList, "second".toList⟩]).1
      = "second".toList
    ∧ "second".toList ≠ "first".toList := by decide

/-- Counterexample for claim C3 as stated: with the `basics` block missing the
generator raises nothing and still produces a full document, substituting empty
strings for every basics-derived placeholder. -/
theorem missing_basics_counterexample :
    generate_cv noBasicsData anyConfig ("en".toList)
        "\x7b\x7bNAME\x7d\x7d|\x7b\x7bEMAIL\x7d\x7d".toList = "|".toList := by decide

/-- Amended claim C3: when the parsed data lacks the `basics` block, generation proceeds
exactly as if an empty `basics` block had been supplied (all basics-derived values
become empty strings); no error is raised and a complete document is produced. -/
theorem missing_basics_defaults (data : ResumeData) (config : Config)
    (lang template : List Char) (h : data.basics = none) :
    generate_cv data config lang template
      = generate_cv ⟨some emptyBasics, data.work, data.education, data.skills⟩ config lang
          template := by
  unfold generate_cv
  rw [h]
  rfl

/-- Witness for `missing_basics_defaults` at a concrete input. -/
theorem missing_basics_defaults_witness :
    generate_cv noBasicsData anyConfig ("en".toList) ("x".toList)
      = generate_cv ⟨some emptyBasics, [], [], []⟩ anyConfig ("en".toList) ("x".toList) :=
  missing_basics_defaults noBasicsData anyConfig ("en".toList) ("x".toList) rfl

/-- Counterexample for claim C4 as stated: `2021-02-30` is of the form
`YYYY-MM-DD` but passes through unchanged (the `datetime` constructor rejects it and
the bare `except` returns the input), while `2020-6-15` is *not* of that form yet is
reformatted rather than passed through. -/
theorem format_date_counterexample :
    (format_date ("2021-02-30".toList) ("en".toList) = "2021-02-30".toList
      ∧ format_date ("2021-02-30".toList) ("en".toList) ≠ "02/2021".toList)
    ∧ (format_date ("2020-6-15".toList) ("en".toList) = "06/2020".toList
      ∧ "06/2020".toList ≠ "2020-6-15".toList) := by decide

/-- Amended claim C4: an absent date formats to the empty string; every date the
strptime pattern accepts (4-digit year, 1–2 digit month 1–12, 1–2 digit day) that
denotes a valid proleptic-Gregorian calendar date with year ≥ 1 is reformatted to
zero-padded two-digit month `/` unpadded year — in particular `YYYY-MM-DD` with a
nonzero leading year digit becomes `MM/YYYY`; any string the parser rejects passes
through unchanged; a range with an absent end date renders as `start – Current` for
`en` and `start – Attuale` for `it`, and as `start – end` otherwise. -/
theorem format_date_spec :
    (∀ lang : List Char, format_date [] lang = [])
    ∧ (∀ (lang : List Char) (y1 y2 y3 y4 m1 m2 d1 d2 : Char),
        isDig y1 → isDig y2 → isDig y3 → isDig y4 → isDig m1 → isDig m2 → isDig d1 →
        isDig d2 → y1 ≠ '0' →
        1 ≤ 10 * dval m1 + dval m2 → 10 * dval m1 + dval m2 ≤ 12 →
        1 ≤ 10 * dval d1 + dval d2 →
        10 * dval d1 + dval d2
          ≤ daysInMonth (1000 * dval y1 + 100 * dval y2 + 10 * dval y3 + dval y4)
              (10 * dval m1 + dval m2) →
        format_date [y1, y2, y3, y4, '-', m1, m2, '-', d1, d2] lang
          = [m1, m2, '/', y1, y2, y3, y4])
    ∧ (∀ (s lang : List Char) (y m d : Nat), strptimeYMD s = some (y, m, d) →
        format_date s lang = pad2 m ++ '/' :: natToChars y)
    ∧ (∀ s lang : List Char, strptimeYMD s = none → format_date s lang = s)
    ∧ (∀ start : List Char, format_date_range start [] ("en".toList)
        = format_date start ("en".toList) ++ " – Current".toList)
    ∧ (∀ start : List Char, format_date_range start [] ("it".toList)
        = format_date start ("it".toList) ++ " – Attuale".toList)
    ∧ (∀ start e lang : List Char, e ≠ [] →
        format_date_range start e lang
          = format_date start lang ++ " – ".toList ++ format_date e lang) := by
  refine ⟨fun lang => rfl, ?_, ?_, ?_, ?_, ?_, ?_⟩
  · intro lang y1 y2 y3 y4 m1 m2 d1 d2 h1 h2 h3 h4 h5 h6 h7 h8 h9 h10 h11 h12 h13
    exact format_date_wellFormed h1 h2 h3 h4 h5 h6 h7 h8 h9 h10 h11 h12 h13 lang
  · intro s lang y m d hsome
    unfold format_date
    have hs : ¬ s = [] := by
      intro he
      rw [he] at hsome
      exact Option.noConfusion hsome
    rw [if_neg hs, hsome]
  · intro s lang hnone
    unfold format_date
    by_cases hs : s = []
    · rw [if_pos hs, hs]
    · rw [if_neg hs, hnone]
  · intro start
    unfold format_date_range
    rw [if_pos rfl, if_pos rfl, List.append_assoc]
    rfl
  · intro start
    unfold format_date_range
    rw [if_pos rfl, if_neg (by decide), List.append_assoc]
    rfl
  · intro start e lang he
    unfold format_date_range
    rw [if_neg he]

/-- Witness for `format_date_spec` at concrete inputs, including a one-digit month
and a leading-zero year. -/
theorem format_date_spec_witness :
    format_date ("2020-06-15".toList) ("en".toList) = "06/2020".toList
    ∧ format_date ("2020-6-15".toList) ("en".toList) = "06/2020".toList
    ∧ format_date ("0500-06-15".toList) ("en".toList) = "06/500".toList :=
  ⟨format_date_spec.2.1 ("en".toList) '2' '0' '2' '0' '0' '6' '1' '5'
      (by decide) (by decide) (by decide) (by decide) (by decide) (by decide) (by decide)
      (by decide) (by decide) (by decide) (by decide) (by decide) (by decide),
    format_date_spec.2.2.1 ("2020-6-15".toList) ("en".toList) 2020 6 15 (by decide),
    format_date_spec.2.2.1 ("0500-06-15".toList) ("en".toList) 500 6 15 (by decide)⟩

/-- Claim C5: the experience renderer's output is exactly the concatenation of one block
per work entry, in input order; likewise the education renderer emits one block per
education entry, in input order. -/
theorem sections_preserve_order (work : List Job) (education : List Edu) (config : Config)
    (lang : List Char) :
    generate_experience_section work config lang = catMap (jobBlock config lang) work
    ∧ generate_education_section education lang = catMap (eduBlock lang) education := by
  constructor
  · unfold generate_experience_section
    rw [foldl_append_eq_catMap]
    simp
  · unfold generate_education_section
    rw [foldl_append_eq_catMap]
    simp

/-- Claim C6: with a positive configured limit `k` the rendered highlight list keeps
exactly `min k n` of the `n` highlights, with `0` it keeps all of them; concretely,
the block for a 5-highlight entry under limit 2 contains exactly 2 `\item` lines. -/
theorem max_highlights_limit (config : Config) (hl : List (List Char)) (k : Int)
    (hk : config.max_highlights_per_job = some k) :
    ((0 < k → (truncatedHighlights config hl).length = min k.toNat hl.length)
      ∧ (k = 0 → truncatedHighlights config hl = hl))
    ∧ countOcc ("\\item".toList) (jobBlock cfgTwo ("en".toList) jobFive) = 2 := by
  refine ⟨⟨?_, ?_⟩, by decide⟩
  · intro hkpos
    unfold truncatedHighlights
    rw [hk]
    simp only [Option.getD_some]
    rw [if_pos hkpos]
    simp [List.length_take]
  · intro hk0
    unfold truncatedHighlights
    rw [hk, hk0]
    simp

/-- Witness for `max_highlights_limit` at a concrete input. -/
theorem max_highlights_limit_witness :
    (truncatedHighlights cfgTwo jobFive.highlights).length = 2 :=
  (max_highlights_limit cfgTwo jobFive.highlights 2 rfl).1.1 (by decide)

/-- Claim C7: with `show_technologies = false` the rendered work block is independent of
the entry's keywords and carries the empty placeholder in place of the keyword line;
with the flag true and non-empty keywords, the comma-joined escaped keyword line is
emitted. -/
theorem show_technologies_flag (config : Config) (lang : List Char) (job : Job)
    (hoff : config.show_technologies = some false) :
    (jobBlock config lang job
        = jobBlock config lang
            ⟨job.position, job.name, job.location, job.startDate, job.endDate, job.summary,
              job.highlights, []⟩
      ∧ techPart config job = "  \x7b\x7d\n".toList)
    ∧ ∀ (config2 : Config) (job2 : Job), config2.show_technologies = some true →
        job2.keywords ≠ [] →
        techPart config2 job2
          = "  \x7b".toList ++ escape_latex (List.intercalate (", ".toList) job2.keywords)
            ++ "\x7d\n".toList := by
  have htp : ∀ j : Job, techPart config j = "  \x7b\x7d\n".toList := by
    intro j
    unfold techPart
    rw [hoff]
    simp
  refine ⟨⟨?_, htp job⟩, ?_⟩
  · unfold jobBlock
    rw [htp, htp]
    rfl
  · intro config2 job2 hon hkw
    unfold techPart
    rw [hon]
    simp [hkw]

/-- Witness for `show_technologies_flag` at a concrete input. -/
theorem show_technologies_flag_witness :
    techPart ⟨some false, none, none⟩ jobFive = "  \x7b\x7d\n".toList :=
  (show_technologies_flag ⟨some false, none, none⟩ ("en".toList) jobFive rfl).1.2

/-- Claim C8: a skill group with an empty keyword list produces no block at all; a group
with keywords produces exactly one block with the escaped group name and the
individually escaped keywords joined by the fixed separator; the section is the
in-order concatenation of the group blocks. -/
theorem skills_section_spec (skills : List Skill) (lang : List Char) :
    generate_skills_section skills lang = catMap skillBlock skills
    ∧ (∀ sk : Skill, sk.keywords = [] → skillBlock sk = [])
    ∧ ∀ sk : Skill, sk.keywords ≠ [] →
        skillBlock sk
          = "\\cvskills\n".toList
            ++ "  \x7b".toList ++ escape_latex sk.name ++ "\x7d\n".toList
            ++ "  \x7b\n".toList
            ++ "    ".toList
            ++ List.intercalate (" \\textbar\\ ".toList) (sk.keywords.map escape_latex)
            ++ "\n  \x7d\n\n".toList := by
  refine ⟨?_, ?_, ?_⟩
  · unfold generate_skills_section
    rw [foldl_append_eq_catMap]
    simp
  · intro sk h
    unfold skillBlock
    rw [if_neg (fun hne => hne h)]
  · intro sk h
    unfold skillBlock
    rw [if_pos h]

/-- Witness for `skills_section_spec` at a concrete input. -/
theorem skills_section_spec_witness :
    skillBlock ⟨"X".toList, []⟩ = [] :=
  (skills_section_spec [] ("en".toList)).2.1 ⟨"X".toList, []⟩ rfl

/-- Claim C9: template text containing none of the compositor's fixed placeholder tokens
(nor the colorlet line) is left unchanged by the whole replacement chain — an unknown
placeholder token survives verbatim and no error is raised or reported. -/
theorem unknown_placeholder_preserved (v : TemplateValues) (t : List Char)
    (h : ∀ pr ∈ cvReplacePairs v, occurs pr.1 t = false) :
    composeTemplate v t = t := by
  unfold composeTemplate
  exact foldl_replaceStr_eq_self _ t fun pr hpr => replaceStr_eq_of_not_occurs t (h pr hpr)

/-- Witness for `unknown_placeholder_preserved`: a template consisting of an unknown
placeholder survives composition verbatim. -/
theorem unknown_placeholder_preserved_witness :
    composeTemplate emptyValues ("Hello \x7b\x7bFOO\x7d\x7d!".toList)
      = "Hello \x7b\x7bFOO\x7d\x7d!".toList :=
  unknown_placeholder_preserved emptyValues ("Hello \x7b\x7bFOO\x7d\x7d!".toList) (by decide)

/-- Claim C10: the escaper is not idempotent — a second pass changes every string that
contains one of the 9 special characters — and its fixed points are exactly the
strings free of all 9 special characters. -/
theorem escape_latex_not_idempotent (s : List Char) :
    ((∃ c ∈ s, c ∈ latexSpecials) → escape_latex (escape_latex s) ≠ escape_latex s)
    ∧ (escape_latex s = s ↔ ∀ c ∈ s, c ∉ latexSpecials) := by
  constructor
  · intro hs heq
    rcases applyRepls_preserves_special hs with ⟨c, hc, hcs⟩
    have h2 := length_applyRepls_gt hcs hc
    simp only [escape_latex_eq_applyRepls] at heq
    have := congrArg List.length heq
    omega
  · constructor
    · intro heq c hc hcs
      have h2 : s.length < (applyRepls s).length := length_applyRepls_gt hcs hc
      rw [escape_latex_eq_applyRepls] at heq
      have := congrArg List.length heq
      omega
    · intro h
      rw [escape_latex_eq_applyRepls]
      exact applyRepls_eq_self h

/-- Witness for `escape_latex_not_idempotent` at a concrete input. -/
theorem escape_latex_not_idempotent_witness :
    escape_latex (escape_latex ['&']) ≠ escape_latex ['&'] :=
  (escape_latex_not_idempotent ['&']).1 ⟨'&', by decide, by decide⟩
